import Mathlib

/-!
Verification of the censusbuddy query-cache subsystem and its helpers.

The definitions below are a shallow embedding of src/censusbuddy/census.py
(class _QueryCache and the get-clause handling of CensusQuery.query),
src/censusbuddy/util.py (check_response) and src/censusbuddy/__init__.py
(merge_frames).  Machine integers are modelled as Nat, Python dicts as
association lists with unique keys, and the cache directory as explicit
state.  The behaviour of the external pandas library (DataFrame.to_csv and
pandas.read_csv with default arguments) and of the requests library
(parameter percent-encoding) is modelled from their documented defaults,
since the repository calls them directly.
-/

namespace Censusbuddy

/-- A single value held in a DataFrame column: text or integer.  Columns of
the census client hold text and numeric data; this model covers the text and
integer cases that the cache claims quantify over. -/
inductive Cell where
  | str (s : String)
  | int (n : Int)
  deriving DecidableEq, Repr

/-- A tabular dataset: ordered column names plus rows of cells, the shallow
model of a pandas DataFrame. -/
structure Dataset where
  cols : List String
  rows : List (List Cell)
  deriving DecidableEq, Repr

/-- Raw content of a delimited text file: lines of comma-separated fields. -/
def Grid := List (List String)

instance : DecidableEq Grid :=
  inferInstanceAs (DecidableEq (List (List String)))

/-- How a cell is rendered into a CSV field (pandas default rendering:
text verbatim, integers in decimal). -/
def cellToCsv : Cell → String
  | Cell.str s => s
  | Cell.int n => toString n

/-- Model of pandas DataFrame.to_csv with default arguments, as invoked by
_QueryCache.save (census.py line 326): the header line starts with an empty
field for the unnamed row index, and every data row is prefixed with its
positional index. -/
def to_csv (df : Dataset) : Grid :=
  ("" :: df.cols) :: df.rows.enum.map (fun p => toString p.1 :: p.2.map cellToCsv)

/-- Decimal digit test on a character. -/
def isDigitChar (c : Char) : Bool :=
  48 ≤ c.toNat && c.toNat ≤ 57

/-- Numeric value of a list of decimal digit characters. -/
def digitsToNat (l : List Char) : Nat :=
  l.foldl (fun n c => n * 10 + (c.toNat - 48)) 0

/-- Parse an optionally signed decimal integer from a character list. -/
def parseIntChars : List Char → Option Int
  | [] => none
  | c :: t =>
      if c = '-' then
        if !t.isEmpty && t.all isDigitChar then some (-(digitsToNat t : Int))
        else none
      else if (c :: t).all isDigitChar then some ((digitsToNat (c :: t) : Int))
      else none

/-- Model of pandas field parsing in read_csv: a field whose text parses as
an integer is read back as an integer, anything else stays text. -/
def parseCell (s : String) : Cell :=
  match parseIntChars s.data with
  | some n => Cell.int n
  | none => Cell.str s

/-- Model of pandas naming of empty header fields in read_csv: the field at
position i with empty name becomes "Unnamed: i". -/
def fixHeader (i : Nat) (h : String) : String :=
  if h = "" then "Unnamed: " ++ toString i else h

/-- Model of pandas.read_csv with default arguments, as invoked by
_QueryCache.load (census.py line 312): first line is the header (empty
header fields renamed), remaining lines are parsed rows. -/
def read_csv (g : Grid) : Dataset :=
  match g with
  | [] => { cols := [], rows := [] }
  | header :: rest =>
      { cols := header.enum.map (fun p => fixHeader p.1 p.2),
        rows := rest.map (fun r => r.map parseCell) }

/-! Association lists with unique keys model Python dicts. -/

/-- Dict lookup: value of the first entry with the given key. -/
def alookup {κ ν : Type} [DecidableEq κ] (k : κ) : List (κ × ν) → Option ν
  | [] => none
  | p :: t => if p.1 = k then some p.2 else alookup k t

/-- Dict assignment d[k] = v: replace the value of an existing entry in
place, else append a new entry (Python 3.7+ insertion order). -/
def ainsert {κ ν : Type} [DecidableEq κ] (k : κ) (v : ν) : List (κ × ν) → List (κ × ν)
  | [] => [(k, v)]
  | p :: t => if p.1 = k then (k, v) :: t else p :: ainsert k v t

/-- Dict deletion del d[k]: drop the first entry with the given key. -/
def aerase {κ ν : Type} [DecidableEq κ] (k : κ) : List (κ × ν) → List (κ × ν)
  | [] => []
  | p :: t => if p.1 = k then t else p :: aerase k t

/-- Keys of an association list. -/
def akeys {κ ν : Type} (l : List (κ × ν)) : List κ := l.map Prod.fst

/-- Values of an association list. -/
def avals {κ ν : Type} (l : List (κ × ν)) : List ν := l.map Prod.snd

/-! The _QueryCache state machine (census.py lines 255-332). -/

/-- State of a _QueryCache object together with the files it manages:
the in-memory index dict (CacheKey to FileId), the running file-id
counter last_fni, the result files on disk keyed by FileId, the persisted
content of query_index.json, and the cache directory path. -/
structure CacheState where
  index : List (String × Nat)
  last_fni : Nat
  files : List (Nat × Grid)
  indexFile : List (String × Nat)
  cache_dir : String
  deriving DecidableEq

/-- Left-pad a string with zeros to the given width. -/
def zeroPad (w : Nat) (s : String) : String :=
  String.mk (List.replicate (w - s.length) '0' ++ s.data)

/-- _QueryCache._itofn: result file name for a FileId, a fixed-width
zero-padded number (census.py line 286). -/
def itofn (dir : String) (i : Nat) : String :=
  dir ++ "/qc" ++ zeroPad 9 (toString i) ++ ".csv"

/-- Maximum of the values of a loaded index, modelling
max(self.index.values()) on a non-empty dict (census.py line 272). -/
def maxVals (l : List (String × Nat)) : Nat :=
  List.foldl max 0 (avals l)

/-- _QueryCache.__init__ (census.py lines 259-272): the index is whatever
query_index.json held (empty when absent), and last_fni is 1001 for an
empty index, otherwise the maximum FileId in the index.  The result files
already on disk are passed in as fs. -/
def initCache (loaded : List (String × Nat)) (fs : List (Nat × Grid)) (dir : String) :
    CacheState :=
  { index := loaded,
    last_fni := if loaded = [] then 1001 else maxVals loaded,
    files := fs,
    indexFile := loaded,
    cache_dir := dir }

/-- Result of _QueryCache.load: the returned (DataFrame, filename) pair and
the cache state after the call. -/
structure LoadOut where
  df : Option Dataset
  fn : String
  st : CacheState
  deriving DecidableEq

/-- _QueryCache.load (census.py lines 293-313).  Unknown key: miss with
empty filename.  Known key whose backing file is missing: miss carrying the
filename, and the stale index entry is deleted in memory only.  Otherwise
the file is read back through pandas.read_csv. -/
def load (st : CacheState) (key : String) : LoadOut :=
  match alookup key st.index with
  | none => { df := none, fn := "", st := st }
  | some fni =>
      match alookup fni st.files with
      | none =>
          { df := none, fn := itofn st.cache_dir fni,
            st := { st with index := aerase key st.index } }
      | some g =>
          { df := some (read_csv g), fn := itofn st.cache_dir fni, st := st }

/-- The FileId that _QueryCache.save stores a key under (census.py lines
321-324): the id already assigned to the key when there is one, else the
running counter plus one. -/
def saveFni (st : CacheState) (key : String) : Nat :=
  match alookup key st.index with
  | some i => i
  | none => st.last_fni + 1

/-- _QueryCache.save (census.py lines 315-332): reuse the FileId of an
existing entry, else allocate last_fni + 1; write the file through
DataFrame.to_csv; update the index and last_fni; rewrite query_index.json
with the full updated index. -/
def save (st : CacheState) (key : String) (df : Dataset) : CacheState :=
  let fni := saveFni st key
  let newIndex := ainsert key fni st.index
  { index := newIndex,
    last_fni := max st.last_fni fni,
    files := ainsert fni (to_csv df) st.files,
    indexFile := newIndex,
    cache_dir := st.cache_dir }

/-- Well-formedness of a cache state: the index dict has unique keys (a
Python dict invariant), its FileId values are pairwise distinct, and every
FileId in the index is bounded by the running counter last_fni. -/
def Inv (st : CacheState) : Prop :=
  (akeys st.index).Nodup ∧ (avals st.index).Nodup ∧
    ∀ v ∈ avals st.index, v ≤ st.last_fni

instance (st : CacheState) : Decidable (Inv st) := by
  unfold Inv; infer_instance

/-! _QueryCache.make_key (census.py lines 274-283). -/

/-- Ordering of parameter entries by parameter name, modelling
sorted(parms.keys()). -/
def keyLe (a b : String × String) : Prop := a.1 ≤ b.1

/-- Strict version of keyLe, used to show that two sorted parameter lists
with the same entries coincide. -/
def keyLt (a b : String × String) : Prop := a.1 < b.1

instance : DecidableRel keyLe := fun a b => inferInstanceAs (Decidable (a.1 ≤ b.1))

instance : IsTotal (String × String) keyLe := ⟨fun a b => le_total a.1 b.1⟩

instance : IsTrans (String × String) keyLe := ⟨fun _ _ _ h1 h2 => le_trans h1 h2⟩

instance : IsAntisymm (String × String) keyLt :=
  ⟨fun _ _ h1 h2 => absurd (lt_trans h1 h2) (lt_irrefl _)⟩

/-- Characters that urllib leaves unescaped. -/
def isUrlSafe (c : Char) : Bool :=
  c.isAlphanum || c = '-' || c = '_' || c = '.' || c = '~'

/-- Hexadecimal digit for a value below 16. -/
def hexDigit (n : Nat) : Char :=
  List.getD ("0123456789ABCDEF".data) n '0'

/-- Percent-encoding of one character, modelling the encoding the requests
library applies when serializing parameters (ASCII range). -/
def quoteChar (c : Char) : String :=
  if isUrlSafe c then String.singleton c
  else if c = ' ' then "+"
  else String.mk ['%', hexDigit (c.toNat / 16 % 16), hexDigit (c.toNat % 16)]

/-- Percent-encoding of a string. -/
def urlquote (s : String) : String :=
  String.join (s.data.map quoteChar)

/-- The parameter entries that make_key serializes: every entry except the
api key credential, in name order.  This models the comprehension
(k, parms[k]) for k in sorted(parms.keys()) if k does not equal the string
key; since a dict has unique keys, looking each sorted surviving key up in
the dict yields exactly the non-credential entries sorted by name. -/
def canonParms (parms : List (String × String)) : List (String × String) :=
  List.insertionSort keyLe (parms.filter (fun p => p.1 ≠ "key"))

/-- _QueryCache.make_key: the full URL the requests library would produce
for the sorted, credential-free parameter list, i.e. the base url followed
by the encoded query string. -/
def make_key (url : String) (parms : List (String × String)) : String :=
  let qs := String.intercalate "&"
    ((canonParms parms).map (fun p => urlquote p.1 ++ "=" ++ urlquote p.2))
  if qs = "" then url else url ++ "?" ++ qs

/-! check_response (util.py lines 7-26). -/

/-- The slice of an HTTP response that check_response inspects: the status
code and the JSON object body, modelled as its key-value fields. -/
structure Resp where
  status_code : Nat
  body : List (String × String)
  deriving DecidableEq

/-- The exception raised by check_response, corresponding to
requests.RequestException with its message. -/
inductive RequestError where
  | requestFailed (status : Nat)
  | queryFailed (msg : String)
  deriving DecidableEq, Repr

/-- check_response (util.py): raise when the status code is not 200, or
when the body of a status-200 response carries an error field; fall
through silently otherwise. -/
def check_response (resp : Resp) : Except RequestError Unit :=
  if resp.status_code ≠ 200 then
    Except.error (RequestError.requestFailed resp.status_code)
  else
    match alookup "error" resp.body with
    | some e => Except.error (RequestError.queryFailed e)
    | none => Except.ok ()

/-! Get-clause normalization in CensusQuery.query (census.py lines 67-79
and 117-120). -/

/-- CensusQuery.get_vars restricted to what line 117 consumes: the variable
names of the catalog that appear in the requested id list (the dict
comprehension keeps the catalog entries whose name is among ids). -/
def get_vars (vars : List String) (ids : List String) : List String :=
  vars.filter (fun k => ids.contains k)

/-- Lines 117-120 of census.py: append GEOID when it is absent from the
get clause and the variable catalog recognizes it, then do the same for
NAME.  Returns the list object after the in-place appends. -/
def normalizeGetClause (vars : List String) (g : List String) : List String :=
  let g1 := if !g.contains "GEOID" && !(get_vars vars ["GEOID"]).isEmpty
            then g ++ ["GEOID"] else g
  if !g1.contains "NAME" && !(get_vars vars ["NAME"]).isEmpty
  then g1 ++ ["NAME"] else g1

/-- The single list object CPython allocates for the default value of the
get_clause parameter of CensusQuery.query (census.py line 82).  Calls that
omit get_clause all share this one object. -/
structure QuerySession where
  default_get_clause : List String
  deriving DecidableEq

/-- One call of CensusQuery.query that omits the get_clause argument: the
shared default list is used, appended to in place by lines 117-120, and the
appended object remains the default value for later calls. -/
def queryWithDefault (vars : List String) (s : QuerySession) :
    List String × QuerySession :=
  let g := normalizeGetClause vars s.default_get_clause
  (g, { default_get_clause := g })

/-! merge_frames (src/censusbuddy/__init__.py lines 37-54). -/

/-- Scan the reversed character list of a string for the reversed pattern
"US"; when found, return the characters that came after the last "US" of
the original string (still reversed). -/
def stripUSRevAux : List Char → Option (List Char)
  | [] => none
  | c :: rest =>
      if c = 'S' && (match rest with | c2 :: _ => c2 = 'U' | [] => false)
      then some []
      else (stripUSRevAux rest).map (fun t => c :: t)

/-- The pandas str.replace with the greedy pattern that anchors at the
start and ends in US, applied to GEOID values on line 46 of __init__.py:
everything up to and including the last occurrence of "US" is removed; a
string without "US" is unchanged. -/
def stripUS (s : String) : String :=
  match stripUSRevAux s.data.reverse with
  | some t => String.mk t.reverse
  | none => s

/-- The GEOID rewrite applied cell-wise: pandas str methods act on text
values (the GEOID column of a census frame is textual). -/
def stripUSCell : Cell → Cell
  | Cell.str s => Cell.str (stripUS s)
  | c => c

/-- Replace the cell at one position of a row. -/
def modAt : Nat → (Cell → Cell) → List Cell → List Cell
  | _, _, [] => []
  | 0, f, c :: t => f c :: t
  | n + 1, f, c :: t => c :: modAt n f t

/-- Position of a column name in a column list (first occurrence). -/
def colIndex (c : String) : List String → Option Nat
  | [] => none
  | h :: t => if h = c then some 0 else (colIndex c t).map (fun i => i + 1)

/-- Python str.endswith, on the reversed character lists. -/
def strEndsWith (s suf : String) : Bool :=
  List.isPrefixOf suf.data.reverse s.data.reverse

/-- Keep the cells of a row whose column name passes the filter. -/
def filterCells (cols : List String) (keep : String → Bool) (r : List Cell) :
    List Cell :=
  ((cols.zip r).filter (fun p => keep p.1)).map Prod.snd

/-- The column renaming pandas.merge applies to the left frame under
suffixes ('_DELETEME', ''): a non-key column whose name also occurs in the
right frame gets the _DELETEME suffix. -/
def renameCol (bcols : List String) (c : String) : String :=
  if c ≠ "GEOID" && bcols.contains c then c ++ "_DELETEME" else c

/-- The column filter of the deletion loop in merge_frames: keep a column
unless its name ends with _DELETEME. -/
def keepCol (c : String) : Bool :=
  !(strEndsWith c "_DELETEME")

/-- The columns of the left frame that survive the merge, in the words of
the spec: the key column, and the columns the right frame does not share. -/
def keepSpecCol (bcols : List String) (c : String) : Bool :=
  c = "GEOID" || !bcols.contains c

/-- merge_frames (__init__.py lines 37-54): strip the junk prefix off the
GEOID values of the census frame, inner-join the two frames on GEOID with
pandas.merge (columns of the left frame that clash with a right-frame
column are suffixed with _DELETEME, the right key column is folded into the
left one), then delete every column whose name ends with _DELETEME.  When a
frame has no GEOID column pandas raises a KeyError; the model returns an
empty frame in that case, and the theorems only concern frames that have
the column. -/
def merge_frames (cendf geodf : Dataset) : Dataset :=
  match colIndex "GEOID" cendf.cols, colIndex "GEOID" geodf.cols with
  | some ia, some ib =>
      let stripped := cendf.rows.map (modAt ia stripUSCell)
      let joinedCols := cendf.cols.map (renameCol geodf.cols)
        ++ geodf.cols.eraseIdx ib
      let joinedRows := stripped.flatMap (fun ra =>
        (geodf.rows.filter (fun rb =>
          rb.getD ib (Cell.str "") = ra.getD ia (Cell.str ""))).map
          (fun rb => ra ++ rb.eraseIdx ib))
      { cols := joinedCols.filter keepCol,
        rows := joinedRows.map (filterCells joinedCols keepCol) }
  | _, _ => { cols := [], rows := [] }

/-- The merge contract in the words of the spec, stated as a directly
constructed frame: after stripping the junk prefix from the GEOID values of
frame A, the result holds one row per pair of rows of A and B that agree on
the identifier (an inner join, unmatched rows dropped); its columns are the
key and the columns of A that B does not share, followed by the non-key
columns of B, so every same-named descriptive column keeps the version from
B and the copy from A is dropped. -/
def mergeSpec (A B : Dataset) (ia ib : Nat) : Dataset :=
  { cols := A.cols.filter (keepSpecCol B.cols)
      ++ B.cols.filter (fun c => c ≠ "GEOID"),
    rows := (A.rows.map (modAt ia stripUSCell)).flatMap (fun ra =>
      (B.rows.filter (fun rb =>
        rb.getD ib (Cell.str "") = ra.getD ia (Cell.str ""))).map
        (fun rb => filterCells A.cols (keepSpecCol B.cols) ra
          ++ rb.eraseIdx ib)) }

/-! Helper lemmas about association lists. -/

theorem alookup_ainsert_self {κ ν : Type} [DecidableEq κ] (k : κ) (v : ν)
    (l : List (κ × ν)) : alookup k (ainsert k v l) = some v := by
  induction l with
  | nil => simp [alookup, ainsert]
  | cons p t ih =>
      by_cases h : p.1 = k
      · simp [ainsert, h, alookup]
      · simp [ainsert, h, alookup, ih]

theorem ainsert_eq_self_of_alookup {κ ν : Type} [DecidableEq κ] {k : κ} {v : ν}
    {l : List (κ × ν)} (h : alookup k l = some v) : ainsert k v l = l := by
  induction l with
  | nil => simp [alookup] at h
  | cons p t ih =>
      obtain ⟨p1, p2⟩ := p
      by_cases hk : p1 = k
      · simp [alookup, hk] at h
        simp [ainsert, hk, h]
      · simp [alookup, hk] at h
        simp [ainsert, hk, ih h]

theorem alookup_eq_none_iff {κ ν : Type} [DecidableEq κ] {k : κ}
    {l : List (κ × ν)} : alookup k l = none ↔ k ∉ akeys l := by
  induction l with
  | nil => simp [alookup, akeys]
  | cons p t ih =>
      by_cases hk : p.1 = k
      · simp [alookup, hk, akeys]
      · simp [alookup, hk, akeys, Ne.symm hk] at ih ⊢
        exact ih

theorem mem_avals_of_alookup {κ ν : Type} [DecidableEq κ] {k : κ} {v : ν}
    {l : List (κ × ν)} (h : alookup k l = some v) : v ∈ avals l := by
  induction l with
  | nil => simp [alookup] at h
  | cons p t ih =>
      by_cases hk : p.1 = k
      · simp [alookup, hk] at h
        simp [avals, h]
      · simp [alookup, hk] at h
        simp [avals] at ih ⊢
        exact Or.inr (ih h)

theorem aerase_sublist {κ ν : Type} [DecidableEq κ] (k : κ)
    (l : List (κ × ν)) : (aerase k l).Sublist l := by
  induction l with
  | nil => simp [aerase]
  | cons p t ih =>
      by_cases hk : p.1 = k
      · simp [aerase, hk]
      · simpa [aerase, hk] using ih

theorem akeys_append {κ ν : Type} (l1 l2 : List (κ × ν)) :
    akeys (l1 ++ l2) = akeys l1 ++ akeys l2 := by
  simp [akeys]

theorem avals_append {κ ν : Type} (l1 l2 : List (κ × ν)) :
    avals (l1 ++ l2) = avals l1 ++ avals l2 := by
  simp [avals]

theorem alookup_aerase_self {κ ν : Type} [DecidableEq κ] {k : κ}
    {l : List (κ × ν)} (h : (akeys l).Nodup) : alookup k (aerase k l) = none := by
  induction l with
  | nil => simp [aerase, alookup]
  | cons p t ih =>
      simp [akeys] at h
      by_cases hk : p.1 = k
      · simp [aerase, hk]
        exact alookup_eq_none_iff.mpr (by simpa [hk, akeys] using h.1)
      · simp [aerase, hk, alookup, ih h.2]

theorem ainsert_eq_append_of_alookup_none {κ ν : Type} [DecidableEq κ] {k : κ}
    (v : ν) {l : List (κ × ν)} (h : alookup k l = none) :
    ainsert k v l = l ++ [(k, v)] := by
  induction l with
  | nil => simp [ainsert]
  | cons p t ih =>
      by_cases hk : p.1 = k
      · simp [alookup, hk] at h
      · simp [alookup, hk] at h
        simp [ainsert, hk, ih h]

/-! Helper lemmas about running maxima. -/

theorem le_foldl_max_init (l : List Nat) (a : Nat) : a ≤ List.foldl max a l := by
  induction l generalizing a with
  | nil => simp
  | cons h t ih => exact le_trans (le_max_left a h) (ih (max a h))

theorem le_foldl_max_of_mem {l : List Nat} {x : Nat} (h : x ∈ l) (a : Nat) :
    x ≤ List.foldl max a l := by
  induction l generalizing a with
  | nil => simp at h
  | cons b t ih =>
      rcases List.mem_cons.mp h with rfl | hmem
      · exact le_trans (le_max_right a x) (le_foldl_max_init t (max a x))
      · exact ih hmem (max a b)

/-! Preservation of the cache invariant. -/

theorem Inv_initCache {loaded : List (String × Nat)} (fs : List (Nat × Grid))
    (dir : String) (hk : (akeys loaded).Nodup) (hv : (avals loaded).Nodup) :
    Inv (initCache loaded fs dir) := by
  refine ⟨hk, hv, fun v hmem => ?_⟩
  have hmem' : v ∈ avals loaded := hmem
  by_cases h : loaded = []
  · subst h; simp [avals] at hmem'
  · have hl : (initCache loaded fs dir).last_fni = maxVals loaded := by
      simp [initCache, h]
    rw [hl]
    exact le_foldl_max_of_mem hmem' 0

theorem Inv_save {st : CacheState} (h : Inv st) (key : String) (d : Dataset) :
    Inv (save st key d) := by
  obtain ⟨hk, hv, hb⟩ := h
  cases hlook : alookup key st.index with
  | some i =>
      have hins : ainsert key i st.index = st.index := ainsert_eq_self_of_alookup hlook
      have hidx : (save st key d).index = st.index := by
        simp [save, saveFni, hlook, hins]
      have hlast : st.last_fni ≤ (save st key d).last_fni := by
        simp [save, saveFni, hlook]
      refine ⟨by rw [hidx]; exact hk, by rw [hidx]; exact hv, ?_⟩
      intro v hmem
      rw [hidx] at hmem
      exact le_trans (hb v hmem) hlast
  | none =>
      have happ : (save st key d).index = st.index ++ [(key, st.last_fni + 1)] := by
        simp only [save, saveFni, hlook]
        exact ainsert_eq_append_of_alookup_none _ hlook
      have hlast : (save st key d).last_fni = st.last_fni + 1 := by
        simp [save, saveFni, hlook, Nat.max_eq_right (Nat.le_succ st.last_fni)]
      have hnotmem : key ∉ akeys st.index := alookup_eq_none_iff.mp hlook
      have hfresh : st.last_fni + 1 ∉ avals st.index := fun hmem =>
        absurd (hb _ hmem) (by omega)
      refine ⟨?_, ?_, ?_⟩
      · rw [happ, akeys_append]
        refine List.nodup_append.mpr ⟨hk, ?_, ?_⟩
        · simp [akeys]
        · simp only [akeys, List.map_cons, List.map_nil]
          exact List.disjoint_singleton.mpr hnotmem
      · rw [happ, avals_append]
        refine List.nodup_append.mpr ⟨hv, ?_, ?_⟩
        · simp [avals]
        · simp only [avals, List.map_cons, List.map_nil]
          exact List.disjoint_singleton.mpr hfresh
      · intro v hmem
        rw [happ, avals_append] at hmem
        rw [hlast]
        rcases List.mem_append.mp hmem with hmem | hmem
        · exact le_trans (hb v hmem) (Nat.le_succ _)
        · simp [avals] at hmem
          omega

theorem Inv_load {st : CacheState} (h : Inv st) (key : String) :
    Inv (load st key).st := by
  obtain ⟨hk, hv, hb⟩ := h
  cases hlook : alookup key st.index with
  | none => simpa [load, hlook] using ⟨hk, hv, hb⟩
  | some fni =>
      cases hfile : alookup fni st.files with
      | some g => simpa [load, hlook, hfile] using ⟨hk, hv, hb⟩
      | none =>
          have hs : (aerase key st.index).Sublist st.index := aerase_sublist key st.index
          refine ⟨?_, ?_, ?_⟩
          · simpa [load, hlook, hfile, akeys] using (hs.map Prod.fst).nodup hk
          · simpa [load, hlook, hfile, avals] using (hs.map Prod.snd).nodup hv
          · intro v hmem
            simp [load, hlook, hfile, avals] at hmem ⊢
            exact hb v ((hs.map Prod.snd).subset (by simpa [avals] using hmem))

/-! Facts about a single save used by several cache lemmas. -/

theorem save_index (st : CacheState) (key : String) (d : Dataset) :
    (save st key d).index = ainsert key (saveFni st key) st.index := rfl

theorem save_last (st : CacheState) (key : String) (d : Dataset) :
    (save st key d).last_fni = max st.last_fni (saveFni st key) := rfl

theorem save_files (st : CacheState) (key : String) (d : Dataset) :
    (save st key d).files = ainsert (saveFni st key) (to_csv d) st.files := rfl

theorem alookup_save_self (st : CacheState) (key : String) (d : Dataset) :
    alookup key (save st key d).index = some (saveFni st key) := by
  rw [save_index]; exact alookup_ainsert_self key _ st.index

theorem saveFni_le_last_fni_save (st : CacheState) (key : String) (d : Dataset) :
    saveFni st key ≤ (save st key d).last_fni := by
  rw [save_last]; exact le_max_right _ _

/-- C6: load on a key that is not in the cache index returns an absent
dataset with an empty location and leaves the cache state unchanged: an
ordinary cache miss, not an error. -/
theorem load_unknown_key_returns_absent (st : CacheState) (key : String)
    (h : alookup key st.index = none) :
    load st key = { df := none, fn := "", st := st } := by
  simp [load, h]

theorem load_unknown_key_returns_absent_witness :
    load (initCache [("otherkey", 1002)] [] "cache") "nokey" =
      { df := none, fn := "",
        st := initCache [("otherkey", 1002)] [] "cache" } :=
  load_unknown_key_returns_absent _ _ (by decide)

/-- C3: when a key is in the index but its backing result file is missing,
load returns an absent dataset (a miss, not an error), drops the stale
entry from the in-memory index without rewriting the persisted index file,
and a subsequent save with that key succeeds and produces a retrievable
entry. -/
theorem load_stale_entry_lazy_cleanup (st : CacheState) (key : String)
    (fni : Nat) (d : Dataset)
    (hnodup : (akeys st.index).Nodup)
    (hidx : alookup key st.index = some fni)
    (hfile : alookup fni st.files = none) :
    (load st key).df = none ∧
    (load st key).st.index = aerase key st.index ∧
    alookup key (load st key).st.index = none ∧
    (load st key).st.indexFile = st.indexFile ∧
    (load st key).st.files = st.files ∧
    (load (save (load st key).st key d) key).df = some (read_csv (to_csv d)) := by
  have hload : load st key = LoadOut.mk none (itofn st.cache_dir fni)
      { st with index := aerase key st.index } := by
    simp [load, hidx, hfile]
  have herase : alookup key (aerase key st.index) = none :=
    alookup_aerase_self hnodup
  rw [hload]
  refine ⟨rfl, rfl, herase, rfl, rfl, ?_⟩
  simp [save, saveFni, herase, load, alookup_ainsert_self]

theorem load_stale_entry_lazy_cleanup_witness :
    (load (initCache [("k", 1002)] [] "cache") "k").df = none ∧
    (load (initCache [("k", 1002)] [] "cache") "k").st.index =
      aerase "k" (initCache [("k", 1002)] [] "cache").index ∧
    alookup "k" (load (initCache [("k", 1002)] [] "cache") "k").st.index = none ∧
    (load (initCache [("k", 1002)] [] "cache") "k").st.indexFile =
      (initCache [("k", 1002)] [] "cache").indexFile ∧
    (load (initCache [("k", 1002)] [] "cache") "k").st.files =
      (initCache [("k", 1002)] [] "cache").files ∧
    (load (save (load (initCache [("k", 1002)] [] "cache") "k").st "k"
        { cols := ["NAME"], rows := [[Cell.str "Alameda"]] }) "k").df =
      some (read_csv (to_csv { cols := ["NAME"], rows := [[Cell.str "Alameda"]] })) :=
  load_stale_entry_lazy_cleanup (initCache [("k", 1002)] [] "cache") "k" 1002
    { cols := ["NAME"], rows := [[Cell.str "Alameda"]] }
    (by decide) (by decide) (by decide)

/-- C5: saving twice under the same key reuses the FileId assigned by the
first save, allocates nothing new (the index mapping and the running
counter are unchanged by the second save), and a subsequent load returns
the stored image of the second dataset only. -/
theorem save_twice_same_key_overwrites (st : CacheState) (key : String)
    (d1 d2 : Dataset) :
    saveFni (save st key d1) key = saveFni st key ∧
    (save (save st key d1) key d2).index = (save st key d1).index ∧
    (save (save st key d1) key d2).last_fni = (save st key d1).last_fni ∧
    (load (save (save st key d1) key d2) key).df =
      some (read_csv (to_csv d2)) := by
  have hfni : saveFni (save st key d1) key = saveFni st key := by
    unfold saveFni
    rw [alookup_save_self st key d1]
    rfl
  have hidx : (save (save st key d1) key d2).index = (save st key d1).index := by
    rw [save_index, hfni]
    exact ainsert_eq_self_of_alookup (alookup_save_self st key d1)
  have hlast : (save (save st key d1) key d2).last_fni
      = (save st key d1).last_fni := by
    rw [save_last, hfni]
    exact Nat.max_eq_left (saveFni_le_last_fni_save st key d1)
  refine ⟨hfni, hidx, hlast, ?_⟩
  have hlook : alookup key (save (save st key d1) key d2).index
      = some (saveFni st key) := by
    rw [hidx]; exact alookup_save_self st key d1
  have hfiles : alookup (saveFni st key) (save (save st key d1) key d2).files
      = some (to_csv d2) := by
    rw [save_files, hfni]
    exact alookup_ainsert_self _ _ _
  simp [load, hlook, hfiles]

/-- C4 counterexample: with an empty mapping the FileId allocator of save
returns 1002 (one more than the 1001 the counter starts at), not the
baseline 1001 the claim states. -/
theorem next_file_id_on_empty_is_1002 :
    saveFni (initCache [] [] "cache") "k" = 1002 ∧ (1002 : Nat) ≠ 1001 :=
  ⟨rfl, by decide⟩

/-- C4 amended: the allocator returns one greater than the running counter
last_fni, which starts at 1001 on an empty mapping (so the first assigned
FileId is 1002, not 1001) and at the maximum FileId of the loaded mapping
otherwise; for a fresh key the allocated FileId is strictly greater than
every FileId currently in the index, and the cache invariant (unique index
keys, pairwise distinct FileId values, all bounded by last_fni) holds at
construction and is preserved by save and load. -/
theorem next_file_id_amended :
    (∀ fs dir, (initCache [] fs dir).last_fni = 1001) ∧
    (∀ loaded fs dir, loaded ≠ [] →
      (initCache loaded fs dir).last_fni = maxVals loaded) ∧
    (∀ st key, alookup key st.index = none →
      saveFni st key = st.last_fni + 1) ∧
    (∀ st key, Inv st → alookup key st.index = none →
      ∀ v ∈ avals st.index, v < saveFni st key) ∧
    (∀ st key d, Inv st → Inv (save st key d)) ∧
    (∀ st key, Inv st → Inv (load st key).st) ∧
    (∀ loaded fs dir, (akeys loaded).Nodup → (avals loaded).Nodup →
      Inv (initCache loaded fs dir)) := by
  refine ⟨fun fs dir => rfl, fun loaded fs dir h => by simp [initCache, h],
    fun st key h => by simp [saveFni, h], ?_, fun st key d h => Inv_save h key d,
    fun st key h => Inv_load h key, fun loaded fs dir hk hv => Inv_initCache fs dir hk hv⟩
  intro st key hinv hnone v hmem
  have hb := hinv.2.2 v hmem
  simp [saveFni, hnone]
  omega

theorem next_file_id_amended_witness :
    (initCache [("a", 1005)] [] "c").last_fni = maxVals [("a", 1005)] ∧
    saveFni (initCache [] [] "c") "k" = (initCache [] [] "c").last_fni + 1 ∧
    (∀ v ∈ avals (initCache [("a", 1005)] [] "c").index,
      v < saveFni (initCache [("a", 1005)] [] "c") "k") ∧
    Inv (save (initCache [("a", 1005)] [] "c") "k"
      { cols := ["NAME"], rows := [] }) ∧
    Inv (load (initCache [("a", 1005)] [] "c") "k").st ∧
    Inv (initCache [("a", 1005)] [] "c") :=
  ⟨next_file_id_amended.2.1 [("a", 1005)] [] "c" (by decide),
   next_file_id_amended.2.2.1 (initCache [] [] "c") "k" (by decide),
   next_file_id_amended.2.2.2.1 (initCache [("a", 1005)] [] "c") "k"
     (by decide) (by decide),
   next_file_id_amended.2.2.2.2.1 (initCache [("a", 1005)] [] "c") "k"
     { cols := ["NAME"], rows := [] } (by decide),
   next_file_id_amended.2.2.2.2.2.1 (initCache [("a", 1005)] [] "c") "k"
     (by decide),
   next_file_id_amended.2.2.2.2.2.2 [("a", 1005)] [] "c" (by decide) (by decide)⟩

/-- C1: the save/load round trip does not reproduce the original columns.
At the concrete fresh key "k" and the one-column dataset with a single text
row, the dataset that load returns has an extra leading column Unnamed: 0
holding the serialized row index, because DataFrame.to_csv writes the row
index by default and pandas.read_csv reads it back as an unnamed column; so
the loaded column list differs from the saved one. -/
theorem save_load_roundtrip_alters_columns :
    ((load (save (initCache [] [] "cache") "k"
        { cols := ["NAME"], rows := [[Cell.str "Alameda"]] }) "k").df).map
        Dataset.cols = some ["Unnamed: 0", "NAME"] ∧
    (["Unnamed: 0", "NAME"] : List String) ≠ ["NAME"] :=
  ⟨rfl, by decide⟩

/-- C7: check_response raises a RequestError exactly when the transport
reports a non-success status (the code treats 200 as the success status)
or the body of a transport-success response carries an in-band error
field; in the error cases nothing but the error is returned, and when
neither condition holds no exception is raised. -/
theorem check_response_error_iff (resp : Resp) :
    ((∃ e, check_response resp = Except.error e) ↔
      (resp.status_code ≠ 200 ∨ (alookup "error" resp.body).isSome)) ∧
    (resp.status_code = 200 → alookup "error" resp.body = none →
      check_response resp = Except.ok ()) := by
  constructor
  · constructor
    · rintro ⟨e, he⟩
      by_cases hs : resp.status_code = 200
      · cases hl : alookup "error" resp.body with
        | none => simp [check_response, hs, hl] at he
        | some v => exact Or.inr (by simp [hl])
      · exact Or.inl hs
    · intro h
      by_cases hs : resp.status_code = 200
      · rcases h with h | h
        · exact absurd hs h
        · cases hl : alookup "error" resp.body with
          | none => simp [hl] at h
          | some v => exact ⟨RequestError.queryFailed v, by simp [check_response, hs, hl]⟩
      · exact ⟨RequestError.requestFailed resp.status_code, by simp [check_response, hs]⟩
  · intro hs hl
    simp [check_response, hs, hl]

theorem check_response_error_iff_witness :
    check_response (Resp.mk 200 [("count", "3")]) = Except.ok () :=
  (check_response_error_iff (Resp.mk 200 [("count", "3")])).2 rfl (by decide)

/-! Helper lemmas about the get-clause normalization. -/

theorem get_vars_singleton_not_empty (vars : List String) (c : String) :
    (!(get_vars vars [c]).isEmpty) = true ↔ c ∈ vars := by
  induction vars with
  | nil => simp [get_vars]
  | cons v t ih =>
      by_cases h : v = c
      · subst h; simp [get_vars]
      · have he : get_vars (v :: t) [c] = get_vars t [c] := by
          simp [get_vars, h]
        rw [he, ih, List.mem_cons]
        constructor
        · exact Or.inr
        · rintro (rfl | hh)
          · exact absurd rfl h
          · exact hh

theorem normalizeGetClause_eq (vars g : List String) :
    normalizeGetClause vars g =
      g ++ (if "GEOID" ∉ g ∧ "GEOID" ∈ vars then ["GEOID"] else [])
        ++ (if "NAME" ∉ g ∧ "NAME" ∈ vars then ["NAME"] else []) := by
  have hg := get_vars_singleton_not_empty vars "GEOID"
  have hn := get_vars_singleton_not_empty vars "NAME"
  by_cases h1 : "GEOID" ∈ g <;> by_cases h2 : "GEOID" ∈ vars <;>
    by_cases h3 : "NAME" ∈ g <;> by_cases h4 : "NAME" ∈ vars <;>
    simp [normalizeGetClause, h1, h2, h3, h4, hg, hn]

theorem mem_normalizeGetClause_of_mem {g : List String} (vars : List String)
    {x : String} (h : x ∈ g) : x ∈ normalizeGetClause vars g := by
  rw [normalizeGetClause_eq]
  exact List.mem_append_left _ (List.mem_append_left _ h)

theorem geoid_mem_normalizeGetClause (vars g : List String) :
    "GEOID" ∈ normalizeGetClause vars g ↔ "GEOID" ∈ g ∨ "GEOID" ∈ vars := by
  rw [normalizeGetClause_eq]
  by_cases h1 : "GEOID" ∈ g <;> by_cases h2 : "GEOID" ∈ vars <;>
    by_cases h3 : "NAME" ∉ g ∧ "NAME" ∈ vars <;> simp [h1, h2, h3]

theorem name_mem_normalizeGetClause (vars g : List String) :
    "NAME" ∈ normalizeGetClause vars g ↔ "NAME" ∈ g ∨ "NAME" ∈ vars := by
  rw [normalizeGetClause_eq]
  by_cases h1 : "NAME" ∈ g <;> by_cases h2 : "NAME" ∈ vars <;>
    by_cases h3 : "GEOID" ∉ g ∧ "GEOID" ∈ vars <;> simp [h1, h2, h3]

theorem new_mem_normalizeGetClause {vars g : List String} {x : String}
    (hmem : x ∈ normalizeGetClause vars g) (hnot : x ∉ g) :
    (x = "GEOID" ∨ x = "NAME") ∧ x ∈ vars := by
  rw [normalizeGetClause_eq] at hmem
  rcases List.mem_append.mp hmem with hmem | hmem
  · rcases List.mem_append.mp hmem with hmem | hmem
    · exact absurd hmem hnot
    · by_cases h : "GEOID" ∉ g ∧ "GEOID" ∈ vars
      · simp [h] at hmem
        exact ⟨Or.inl hmem, hmem ▸ h.2⟩
      · simp [h] at hmem
  · by_cases h : "NAME" ∉ g ∧ "NAME" ∈ vars
    · simp [h] at hmem
      exact ⟨Or.inr hmem, hmem ▸ h.2⟩
    · simp [h] at hmem

/-- C9: the query get clause is normalized by appending GEOID exactly when
it is absent and the variable catalog recognizes it, likewise NAME, and no
other field is ever added: anything in the normalized clause that was not
requested is one of these two identifier fields and is recognized by the
catalog. -/
theorem query_appends_recognized_ids (vars g : List String) :
    ("GEOID" ∈ normalizeGetClause vars g ↔ "GEOID" ∈ g ∨ "GEOID" ∈ vars) ∧
    ("NAME" ∈ normalizeGetClause vars g ↔ "NAME" ∈ g ∨ "NAME" ∈ vars) ∧
    (∀ x ∈ normalizeGetClause vars g, x ∉ g →
      (x = "GEOID" ∨ x = "NAME") ∧ x ∈ vars) :=
  ⟨geoid_mem_normalizeGetClause vars g, name_mem_normalizeGetClause vars g,
    fun _ hmem hnot => new_mem_normalizeGetClause hmem hnot⟩

theorem query_appends_recognized_ids_witness :
    ("GEOID" ∈ normalizeGetClause ["GEOID", "NAME", "DP04"] ["DP04"] ↔
      "GEOID" ∈ ["DP04"] ∨ "GEOID" ∈ ["GEOID", "NAME", "DP04"]) ∧
    ("NAME" ∈ normalizeGetClause ["GEOID", "NAME", "DP04"] ["DP04"] ↔
      "NAME" ∈ ["DP04"] ∨ "NAME" ∈ ["GEOID", "NAME", "DP04"]) ∧
    (∀ x ∈ normalizeGetClause ["GEOID", "NAME", "DP04"] ["DP04"],
      x ∉ ["DP04"] → (x = "GEOID" ∨ x = "NAME") ∧ x ∈ ["GEOID", "NAME", "DP04"]) :=
  query_appends_recognized_ids ["GEOID", "NAME", "DP04"] ["DP04"]

/-- C10: because the default value of the get_clause parameter is one
shared mutable list, a call that omits the argument and auto-appends GEOID
leaves GEOID in the shared default: after the call the default list is the
very list the call used and returned, GEOID is in it, and every later call
that also omits the argument sees and returns it. -/
theorem query_default_get_clause_mutation_persists
    (vars1 vars2 : List String) (s : QuerySession)
    (h1 : "GEOID" ∈ vars1) (h2 : "GEOID" ∉ s.default_get_clause) :
    ((queryWithDefault vars1 s).2).default_get_clause =
      (queryWithDefault vars1 s).1 ∧
    "GEOID" ∉ s.default_get_clause ∧
    "GEOID" ∈ ((queryWithDefault vars1 s).2).default_get_clause ∧
    "GEOID" ∈ (queryWithDefault vars2 ((queryWithDefault vars1 s).2)).1 := by
  have hmem : "GEOID" ∈ normalizeGetClause vars1 s.default_get_clause :=
    (geoid_mem_normalizeGetClause vars1 s.default_get_clause).mpr (Or.inr h1)
  exact ⟨rfl, h2, hmem, mem_normalizeGetClause_of_mem vars2 hmem⟩

theorem query_default_get_clause_mutation_persists_witness :
    ((queryWithDefault ["GEOID", "NAME"] (QuerySession.mk [])).2).default_get_clause =
      (queryWithDefault ["GEOID", "NAME"] (QuerySession.mk [])).1 ∧
    "GEOID" ∉ (QuerySession.mk ([] : List String)).default_get_clause ∧
    "GEOID" ∈ ((queryWithDefault ["GEOID", "NAME"]
      (QuerySession.mk [])).2).default_get_clause ∧
    "GEOID" ∈ (queryWithDefault ["DP05"]
      ((queryWithDefault ["GEOID", "NAME"] (QuerySession.mk [])).2)).1 :=
  query_default_get_clause_mutation_persists ["GEOID", "NAME"] ["DP05"]
    (QuerySession.mk []) (by decide) (by decide)

/-! Helper lemmas about the canonical parameter list of make_key. -/

theorem canonParms_strict_sorted {l : List (String × String)}
    (h : (akeys l).Nodup) : List.Pairwise keyLt (canonParms l) := by
  have hsorted : List.Sorted keyLe (canonParms l) :=
    List.sorted_insertionSort keyLe (l.filter (fun p => p.1 ≠ "key"))
  have hperm : List.Perm (canonParms l) (l.filter (fun p => p.1 ≠ "key")) :=
    List.perm_insertionSort keyLe (l.filter (fun p => p.1 ≠ "key"))
  have hfk : ((l.filter (fun p => p.1 ≠ "key")).map Prod.fst).Nodup :=
    ((List.filter_sublist l).map Prod.fst).nodup h
  have hck : ((canonParms l).map Prod.fst).Nodup :=
    (hperm.map Prod.fst).nodup_iff.mpr hfk
  have hne : List.Pairwise (fun a b : String × String => a.1 ≠ b.1)
      (canonParms l) := List.pairwise_map.mp hck
  exact (hsorted.and hne).imp fun hab => lt_of_le_of_ne hab.1 hab.2

theorem canonParms_eq_of_perm {l1 l2 : List (String × String)}
    (h1 : (akeys l1).Nodup) (h2 : (akeys l2).Nodup)
    (hp : List.Perm (l1.filter (fun p => p.1 ≠ "key"))
      (l2.filter (fun p => p.1 ≠ "key"))) :
    canonParms l1 = canonParms l2 := by
  have hperm : List.Perm (canonParms l1) (canonParms l2) :=
    ((List.perm_insertionSort keyLe _).trans hp).trans
      (List.perm_insertionSort keyLe _).symm
  exact List.eq_of_perm_of_sorted hperm
    (canonParms_strict_sorted h1) (canonParms_strict_sorted h2)

/-- C2: make_key depends only on the set of non-credential parameters:
two parameter dicts that hold the same non-credential entries in any
insertion order produce the same key, and in particular changing only the
value of the api key credential leaves the key unchanged, so the
credential never enters the key material. -/
theorem make_key_credential_free :
    (∀ (url : String) (P1 P2 : List (String × String)),
      (akeys P1).Nodup → (akeys P2).Nodup →
      List.Perm (P1.filter (fun p => p.1 ≠ "key"))
        (P2.filter (fun p => p.1 ≠ "key")) →
      make_key url P1 = make_key url P2) ∧
    (∀ (url : String) (P : List (String × String)) (v1 v2 : String),
      make_key url (P ++ [("key", v1)]) = make_key url (P ++ [("key", v2)])) := by
  constructor
  · intro url P1 P2 h1 h2 hp
    unfold make_key
    rw [canonParms_eq_of_perm h1 h2 hp]
  · intro url P v1 v2
    have hf : ∀ v : String, (P ++ [("key", v)]).filter (fun p => p.1 ≠ "key")
        = P.filter (fun p => p.1 ≠ "key") := by
      intro v
      simp [List.filter_append]
    unfold make_key canonParms
    rw [hf v1, hf v2]

theorem make_key_credential_free_witness :
    make_key "https://api.census.gov/data/2015/acs5/profile"
      [("get", "DP04_0045E,GEOID,NAME"), ("for", "place:*"), ("key", "SECRET1")] =
    make_key "https://api.census.gov/data/2015/acs5/profile"
      [("key", "SECRET2"), ("for", "place:*"), ("get", "DP04_0045E,GEOID,NAME")] :=
  make_key_credential_free.1 "https://api.census.gov/data/2015/acs5/profile"
    [("get", "DP04_0045E,GEOID,NAME"), ("for", "place:*"), ("key", "SECRET1")]
    [("key", "SECRET2"), ("for", "place:*"), ("get", "DP04_0045E,GEOID,NAME")]
    (by decide) (by decide) (by decide)

/-! Helper lemmas for the merge proof. -/

theorem modAt_length (i : Nat) (f : Cell → Cell) (r : List Cell) :
    (modAt i f r).length = r.length := by
  induction r generalizing i with
  | nil => cases i <;> rfl
  | cons c t ih =>
      cases i with
      | zero => rfl
      | succ n => simp [modAt, ih]

theorem colIndex_lt_length {c : String} {l : List String} {i : Nat}
    (h : colIndex c l = some i) : i < l.length := by
  induction l generalizing i with
  | nil => simp [colIndex] at h
  | cons a t ih =>
      by_cases ha : a = c
      · simp [colIndex, ha] at h
        simp [List.length_cons]
        omega
      · simp [colIndex, ha, Option.map_eq_some'] at h
        obtain ⟨j, hj, rfl⟩ := h
        have := ih hj
        simp [List.length_cons]
        omega

theorem filter_ne_eq_eraseIdx {c : String} {l : List String} {i : Nat}
    (hnd : l.Nodup) (h : colIndex c l = some i) :
    l.filter (fun x => x ≠ c) = l.eraseIdx i := by
  induction l generalizing i with
  | nil => simp [colIndex] at h
  | cons a t ih =>
      obtain ⟨hna, hndt⟩ := List.nodup_cons.mp hnd
      by_cases ha : a = c
      · subst ha
        simp only [colIndex, if_pos rfl] at h
        obtain rfl : (0 : Nat) = i := by simpa using h
        rw [List.eraseIdx_cons_zero, List.filter_cons, if_neg (by simp)]
        refine List.filter_eq_self.mpr fun x hx => ?_
        simp only [decide_eq_true_eq]
        exact fun hxa => hna (hxa ▸ hx)
      · simp only [colIndex, if_neg ha, Option.map_eq_some'] at h
        obtain ⟨j, hj, rfl⟩ := h
        rw [List.eraseIdx_cons_succ, List.filter_cons, if_pos (by simp [ha]),
          ih hndt hj]

theorem strEndsWith_append (c suf : String) :
    strEndsWith (c ++ suf) suf = true := by
  unfold strEndsWith
  rw [String.data_append, List.reverse_append]
  exact List.isPrefixOf_iff_prefix.mpr ⟨c.data.reverse, rfl⟩

theorem keepCol_renameCol {bcols : List String} {c : String}
    (hc : strEndsWith c "_DELETEME" = false) :
    keepCol (renameCol bcols c) = keepSpecCol bcols c := by
  unfold renameCol keepSpecCol keepCol
  by_cases h1 : c = "GEOID"
  · subst h1
    rw [if_neg (by simp)]
    simp [hc]
  · by_cases h2 : c ∈ bcols
    · rw [if_pos (by simp [h1, h2])]
      simp [h1, h2, strEndsWith_append]
    · rw [if_neg (by simp [h2])]
      simp [h1, h2, hc]

theorem renameCol_eq_self_of_keepSpec {bcols : List String} {c : String}
    (h : keepSpecCol bcols c = true) : renameCol bcols c = c := by
  unfold keepSpecCol at h
  unfold renameCol
  by_cases h1 : c = "GEOID"
  · simp [h1]
  · simp [h1] at h ⊢
    simp [h]

theorem filterCells_append_split (acols bcols : List String)
    (keep : String → Bool) (ra rbr : List Cell)
    (hlen : acols.length = ra.length) :
    filterCells (acols ++ bcols) keep (ra ++ rbr)
      = filterCells acols keep ra ++ filterCells bcols keep rbr := by
  unfold filterCells
  rw [List.zip_append hlen, List.filter_append, List.map_append]

theorem filterCells_renamed (bcols acols : List String) (ra : List Cell)
    (hclean : ∀ c ∈ acols, strEndsWith c "_DELETEME" = false) :
    filterCells (acols.map (renameCol bcols)) keepCol ra
      = filterCells acols (keepSpecCol bcols) ra := by
  unfold filterCells
  rw [List.zip_map_left, List.filter_map, List.map_map]
  have h1 : List.filter ((fun p : String × Cell => keepCol p.1)
        ∘ Prod.map (renameCol bcols) id) (acols.zip ra)
      = List.filter (fun p : String × Cell => keepSpecCol bcols p.1)
        (acols.zip ra) := by
    refine List.filter_congr fun p hp => ?_
    simp only [Function.comp_apply, Prod.map_fst]
    exact keepCol_renameCol (hclean p.1 (List.of_mem_zip hp).1)
  rw [h1]
  refine List.map_congr_left fun p _ => ?_
  simp [Prod.map_snd]

theorem filterCells_all_kept (bcols : List String) (rbr : List Cell)
    (hclean : ∀ c ∈ bcols, keepCol c = true) (hlen : rbr.length ≤ bcols.length) :
    filterCells bcols keepCol rbr = rbr := by
  unfold filterCells
  have h1 : (bcols.zip rbr).filter (fun p => keepCol p.1) = bcols.zip rbr :=
    List.filter_eq_self.mpr fun p hp => hclean p.1 (List.of_mem_zip hp).1
  rw [h1]
  exact List.map_snd_zip _ _ hlen

/-- C8: merge_frames agrees with the merge contract of the spec: the junk
prefix ending in US is stripped from the GEOID values of the census frame,
the frames are inner-joined on the identifier (rows without a partner are
dropped), and for every same-named descriptive column present in both
frames the version from the second frame is kept while the copy from the
first is dropped.  Hypotheses: both frames have a GEOID column, the second
frame's column names are distinct, no column of either frame already ends
with the _DELETEME suffix pandas.merge would use, and rows have as many
cells as there are columns. -/
theorem merge_frames_matches_spec (A B : Dataset) {ia ib : Nat}
    (hA : colIndex "GEOID" A.cols = some ia)
    (hB : colIndex "GEOID" B.cols = some ib)
    (hBnodup : B.cols.Nodup)
    (hAclean : ∀ c ∈ A.cols, strEndsWith c "_DELETEME" = false)
    (hBclean : ∀ c ∈ B.cols, strEndsWith c "_DELETEME" = false)
    (hArows : ∀ r ∈ A.rows, r.length = A.cols.length)
    (hBrows : ∀ r ∈ B.rows, r.length = B.cols.length) :
    merge_frames A B = mergeSpec A B ia ib := by
  have hible : ib < B.cols.length := colIndex_lt_length hB
  have hBkept : ∀ c ∈ B.cols.eraseIdx ib, keepCol c = true := by
    intro c hc
    have : c ∈ B.cols := (List.eraseIdx_sublist B.cols ib).subset hc
    simp [keepCol, hBclean c this]
  unfold merge_frames mergeSpec
  rw [hA, hB]
  simp only []
  rw [Dataset.mk.injEq]
  constructor
  · -- column lists agree
    rw [List.filter_append]
    have hleft : (A.cols.map (renameCol B.cols)).filter keepCol
        = A.cols.filter (keepSpecCol B.cols) := by
      rw [List.filter_map]
      have h1 : A.cols.filter (keepCol ∘ renameCol B.cols)
          = A.cols.filter (keepSpecCol B.cols) :=
        List.filter_congr fun c hc => keepCol_renameCol (hAclean c hc)
      rw [h1]
      have h2 : (A.cols.filter (keepSpecCol B.cols)).map (renameCol B.cols)
          = (A.cols.filter (keepSpecCol B.cols)).map id :=
        List.map_congr_left fun c hc =>
          renameCol_eq_self_of_keepSpec (List.of_mem_filter hc)
      rw [h2, List.map_id]
    have hright : (B.cols.eraseIdx ib).filter keepCol = B.cols.eraseIdx ib :=
      List.filter_eq_self.mpr hBkept
    rw [hleft, hright, filter_ne_eq_eraseIdx hBnodup hB]
  · -- row lists agree
    rw [List.map_flatMap]
    refine List.flatMap_congr fun ra hra => ?_
    rw [List.map_map]
    refine List.map_congr_left fun rb hrb => ?_
    simp only [Function.comp_apply]
    obtain ⟨r0, hr0, rfl⟩ := List.mem_map.mp hra
    have hralen : (A.cols.map (renameCol B.cols)).length
        = (modAt ia stripUSCell r0).length := by
      rw [List.length_map, modAt_length, hArows r0 hr0]
    have hrblen : (rb.eraseIdx ib).length ≤ (B.cols.eraseIdx ib).length := by
      have hrbmem : rb ∈ B.rows := (List.filter_sublist B.rows).subset hrb
      rw [List.length_eraseIdx, List.length_eraseIdx, hBrows rb hrbmem]
    rw [filterCells_append_split _ _ _ _ _ hralen,
      filterCells_renamed _ _ _ hAclean,
      filterCells_all_kept _ _ hBkept hrblen]

theorem merge_frames_matches_spec_witness :
    merge_frames
      (Dataset.mk ["GEOID", "NAME", "DP04"]
        [[Cell.str "0400000US06", Cell.str "cal", Cell.int 5],
         [Cell.str "0400000US99", Cell.str "zz", Cell.int 9]])
      (Dataset.mk ["GEOID", "NAME"]
        [[Cell.str "06", Cell.str "California"]]) =
    mergeSpec
      (Dataset.mk ["GEOID", "NAME", "DP04"]
        [[Cell.str "0400000US06", Cell.str "cal", Cell.int 5],
         [Cell.str "0400000US99", Cell.str "zz", Cell.int 9]])
      (Dataset.mk ["GEOID", "NAME"]
        [[Cell.str "06", Cell.str "California"]]) 0 0 :=
  merge_frames_matches_spec
    (Dataset.mk ["GEOID", "NAME", "DP04"]
      [[Cell.str "0400000US06", Cell.str "cal", Cell.int 5],
       [Cell.str "0400000US99", Cell.str "zz", Cell.int 9]])
    (Dataset.mk ["GEOID", "NAME"]
      [[Cell.str "06", Cell.str "California"]])
    (by decide) (by decide) (by decide) (by decide) (by decide)
    (by decide) (by decide)

end Censusbuddy
